import Mathlib

/-!
Verification development for the NotebookLight service layer
(`services/geminiService.ts` and `services/ollamaService.ts`).

The development shallowly embeds the response-normalization and
structured-extraction logic of the two backend adapters:

* a `JSVal` type of JavaScript values, with property access (`jsGet`),
  truthiness (`truthy`) and string conversion (`jsString`) as used by the
  source;
* `jsonParse`, a model of the JavaScript `JSON.parse` builtin restricted to
  the grammar fragment the theorems exercise (strings with the common
  escapes, integer numbers, `true`/`false`/`null`, arrays, objects); inputs
  outside the fragment are rejected, so every theorem conditioned on a
  successful parse speaks only about texts inside the fragment, where the
  model and the builtin agree;
* faithful translations of `toText`, `generateFlashcards`, `askQuestion`,
  `generateReport` (both variants) and the streaming loop of `queryOllama`.

Backend calls (`fetch`, the Gemini SDK) are modelled as explicit parameters
delivering either a value or an error, mirroring the promise
resolution/rejection of the source.
-/

mutual

/-- Model of a JavaScript runtime value, covering the shapes the source code
inspects.  `fn ret` models a no-argument callable whose invocation returns
the string `ret` (the only way the source ever calls a function value).
Array elements and object fields are carried by the companion types
`JSItems` and `JSFields` so that every function on values is structurally
recursive. -/
inductive JSVal where
  | undef
  | null
  | bool (b : Bool)
  | num (n : Int)
  | str (s : String)
  | fn (ret : String)
  | arr (elems : JSItems)
  | obj (fields : JSFields)

/-- Elements of a JavaScript array. -/
inductive JSItems where
  | nil
  | cons (hd : JSVal) (tl : JSItems)

/-- Fields of a JavaScript object, in source order. -/
inductive JSFields where
  | nil
  | cons (key : String) (val : JSVal) (tl : JSFields)

end

/-- Build array elements from a Lean list. -/
def JSItems.ofList : List JSVal → JSItems
  | [] => .nil
  | v :: vs => .cons v (JSItems.ofList vs)

/-- View array elements as a Lean list. -/
def JSItems.toList : JSItems → List JSVal
  | .nil => []
  | .cons v vs => v :: vs.toList

/-- Build object fields from a Lean association list. -/
def JSFields.ofList : List (String × JSVal) → JSFields
  | [] => .nil
  | kv :: kvs => .cons kv.1 kv.2 (JSFields.ofList kvs)

/-- View object fields as a Lean association list. -/
def JSFields.toList : JSFields → List (String × JSVal)
  | .nil => []
  | .cons k v kvs => (k, v) :: kvs.toList

/-- Last-wins lookup of a key in an object's field list, as JavaScript
property semantics (later duplicate keys overwrite earlier ones, which is
also how `JSON.parse` treats duplicate keys). -/
def lookupLast : JSFields → String → Option JSVal
  | .nil, _ => none
  | .cons k v tl, key =>
    match lookupLast tl key with
    | some r => some r
    | none => if k = key then some v else none

/-- Property access `v?.k`: `undefined` unless `v` is an object carrying the
key.  (The handful of built-in properties of strings, arrays and functions
are irrelevant to the keys the source reads.) -/
def jsGet (v : JSVal) (k : String) : JSVal :=
  match v with
  | .obj fields => (lookupLast fields k).getD .undef
  | _ => (.undef)

/-- Decimal digits of a natural number, most significant first, with fuel
(any fuel above the value itself is sufficient); models the JavaScript
number-to-string conversion used by template literals and `String(...)` for
the (integral) numbers the source produces. -/
def natDecAux : Nat → Nat → List Char
  | 0, _ => []
  | fuel + 1, n =>
    if n < 10 then [Char.ofNat (48 + n)]
    else natDecAux fuel (n / 10) ++ [Char.ofNat (48 + n % 10)]

/-- Decimal string of a natural number. -/
def natDec (n : Nat) : String := ⟨natDecAux (n + 1) n⟩

/-- Decimal string of an integer (JavaScript `String(n)` for integers). -/
def intDec (n : Int) : String :=
  if n < 0 then "-" ++ natDec n.natAbs else natDec n.natAbs

/-- Whitespace in the sense of JavaScript `String.prototype.trim`: the
ASCII whitespace and line terminators together with the Unicode space
separators, no-break space, BOM and the line/paragraph separators. -/
def jsWhitespace (c : Char) : Bool :=
  (9 ≤ c.toNat ∧ c.toNat ≤ 13) ∨ c.toNat = 32 ∨ c.toNat = 160 ∨ c.toNat = 0x1680 ∨
    (0x2000 ≤ c.toNat ∧ c.toNat ≤ 0x200A) ∨ c.toNat = 0x2028 ∨ c.toNat = 0x2029 ∨
    c.toNat = 0x202F ∨ c.toNat = 0x205F ∨ c.toNat = 0x3000 ∨ c.toNat = 0xFEFF

/-- Model of JavaScript `s.trim()`: strip leading and trailing whitespace. -/
def jsTrim (s : String) : String :=
  ⟨((s.toList.dropWhile jsWhitespace).reverse.dropWhile jsWhitespace).reverse⟩

/-- JavaScript truthiness of a value. -/
def truthy : JSVal → Bool
  | .undef => false
  | .null => false
  | .bool b => b
  | .num n => if n = 0 then false else true
  | .str s => if s = "" then false else true
  | .fn _ => true
  | .arr _ => true
  | .obj _ => true

mutual

/-- JavaScript `String(v)` conversion.  An array converts as
`Array.prototype.toString`: elements joined with commas, with `undefined`
and `null` elements contributing empty strings.  `String` of a function
value yields the function's source text, modelled by a fixed placeholder. -/
def jsString : JSVal → String
  | .undef => "undefined"
  | .null => "null"
  | .bool true => "true"
  | .bool false => "false"
  | .num n => intDec n
  | .str s => s
  | .fn _ => "function"
  | .arr xs => jsItemsString xs
  | .obj _ => "[object Object]"

/-- Comma join of array elements for `jsString`. -/
def jsItemsString : JSItems → String
  | .nil => ""
  | .cons x tl =>
    (match x with
      | .undef => ""
      | .null => ""
      | y => jsString y) ++
    (match tl with
      | .nil => ""
      | t => "," ++ jsItemsString t)

end

/-- Index access `v?.[i]`: array element, object property named by the
decimal index, character of a string, `undefined` otherwise. -/
def jsIndex (v : JSVal) (i : Nat) : JSVal :=
  match v with
  | .arr xs => (xs.toList.get? i).getD .undef
  | .obj fields => (lookupLast fields (natDec i)).getD .undef
  | .str s =>
    match s.toList.get? i with
    | some c => .str ⟨[c]⟩
    | none => .undef
  | _ => (.undef)

/-! ### A model of `JSON.parse` -/

/-- Skip JSON whitespace (space, tab, line feed, carriage return — exactly
the whitespace `JSON.parse` accepts). -/
def skipWs : List Char → List Char
  | [] => []
  | c :: cs =>
    if c = ' ' ∨ c = '\t' ∨ c = '\n' ∨ c = '\r' then skipWs cs else c :: cs

/-- Translation of a JSON string escape character (the `\uXXXX` form is not
modelled; the parser rejects it). -/
def escChar (c : Char) : Option Char :=
  if c = '"' then some '"'
  else if c = '\\' then some '\\'
  else if c = '/' then some '/'
  else if c = 'n' then some '\n'
  else if c = 't' then some '\t'
  else if c = 'r' then some '\r'
  else if c = 'b' then some (Char.ofNat 8)
  else if c = 'f' then some (Char.ofNat 12)
  else none

/-- Parse the body of a JSON string after the opening quote, returning the
decoded characters and the input past the closing quote. -/
def parseStringBody : List Char → Option (List Char × List Char)
  | [] => none
  | c :: cs =>
    if c = '"' then some ([], cs)
    else if c = '\\' then
      match cs with
      | [] => none
      | e :: cs2 =>
        match escChar e with
        | some ec => (parseStringBody cs2).map (fun p => (ec :: p.1, p.2))
        | none => none
    else if c.toNat < 32 then none
    else (parseStringBody cs).map (fun p => (c :: p.1, p.2))

/-- Value of a decimal digit character, if it is one. -/
def digitVal (c : Char) : Option Nat :=
  if '0' ≤ c ∧ c ≤ '9' then some (c.toNat - 48) else none

/-- Longest prefix of decimal digits. -/
def takeDigits : List Char → List Nat × List Char
  | [] => ([], [])
  | c :: cs =>
    match digitVal c with
    | some d =>
      let p := takeDigits cs
      (d :: p.1, p.2)
    | none => ([], c :: cs)

/-- Parse a JSON number.  Fractions and exponents are outside the modelled
fragment and are rejected. -/
def parseNumber (cs : List Char) : Option (Int × List Char) :=
  let sgn : Bool × List Char := match cs with | '-' :: r => (true, r) | _ => (false, cs)
  match takeDigits sgn.2 with
  | ([], _) => none
  | (ds, rest) =>
    if ds.length > 1 ∧ ds.headD 1 = 0 then none
    else
      match rest with
      | '.' :: _ => none
      | 'e' :: _ => none
      | 'E' :: _ => none
      | _ =>
        let v : Int := Int.ofNat (ds.foldl (fun a d => 10 * a + d) 0)
        some (if sgn.1 then -v else v, rest)

/-- Loop over one or more comma-separated array elements up to the closing
bracket (leading whitespace already skipped), parameterised by the value
parser for the element positions. -/
def elemsLoop (pv : List Char → Option (JSVal × List Char)) :
    Nat → List Char → Option (List JSVal × List Char)
  | 0, _ => none
  | fuel + 1, cs =>
    match pv cs with
    | none => none
    | some (v, r) =>
      match skipWs r with
      | ',' :: r2 => (elemsLoop pv fuel (skipWs r2)).map (fun p => (v :: p.1, p.2))
      | ']' :: r2 => some ([v], r2)
      | _ => none

/-- Loop over one or more comma-separated object members up to the closing
brace (leading whitespace already skipped), parameterised by the value
parser for the member values. -/
def membersLoop (pv : List Char → Option (JSVal × List Char)) :
    Nat → List Char → Option (List (String × JSVal) × List Char)
  | 0, _ => none
  | fuel + 1, cs =>
    match cs with
    | '"' :: rest =>
      match parseStringBody rest with
      | none => none
      | some (keyB, r) =>
        match skipWs r with
        | ':' :: r2 =>
          match pv (skipWs r2) with
          | none => none
          | some (v, r3) =>
            match skipWs r3 with
            | ',' :: r4 =>
              (membersLoop pv fuel (skipWs r4)).map (fun p => ((⟨keyB⟩, v) :: p.1, p.2))
            | '}' :: r4 => some ([(⟨keyB⟩, v)], r4)
            | _ => none
        | _ => none
    | _ => none

/-- Parse a single JSON value (no leading whitespace), fuelled. -/
def parseVal : Nat → List Char → Option (JSVal × List Char)
  | 0, _ => none
  | fuel + 1, cs =>
    match cs with
    | [] => none
    | c :: rest =>
      if c = 'n' then
        match rest with | 'u' :: 'l' :: 'l' :: r => some (.null, r) | _ => none
      else if c = 't' then
        match rest with | 'r' :: 'u' :: 'e' :: r => some (.bool true, r) | _ => none
      else if c = 'f' then
        match rest with | 'a' :: 'l' :: 's' :: 'e' :: r => some (.bool false, r) | _ => none
      else if c = '"' then
        (parseStringBody rest).map (fun p => (.str ⟨p.1⟩, p.2))
      else if c = '[' then
        match skipWs rest with
        | ']' :: r => some (.arr .nil, r)
        | cs1 =>
          (elemsLoop (parseVal fuel) fuel cs1).map
            (fun p => (.arr (JSItems.ofList p.1), p.2))
      else if c = '{' then
        match skipWs rest with
        | '}' :: r => some (.obj .nil, r)
        | cs1 =>
          (membersLoop (parseVal fuel) fuel cs1).map
            (fun p => (.obj (JSFields.ofList p.1), p.2))
      else (parseNumber (c :: rest)).map (fun p => (.num p.1, p.2))

/-- Model of `JSON.parse`: parse a complete text, allowing surrounding
whitespace; `none` models a thrown `SyntaxError`. -/
def jsonParse (s : String) : Option JSVal :=
  match parseVal (2 * s.length + 8) (skipWs s.toList) with
  | some (v, rest) => if skipWs rest = [] then some v else none
  | none => none

/-! ### Shared service helpers -/

/-- The substring matched by the greedy pattern from the first opening
bracket to the last closing bracket (the `text.match` regex of the cloud
variant): a match exists exactly when the first occurrence of an opening
bracket lies strictly before the last occurrence of a closing bracket, and
the match then spans from the former to the latter inclusive. -/
def bracketSlice (s : String) : Option String :=
  let cs := s.toList
  match cs.findIdx? (· = '['), cs.reverse.findIdx? (· = ']') with
  | some i, some jr =>
    let j := cs.length - 1 - jr
    if i < j then some ⟨(cs.drop i).take (j - i + 1)⟩ else none
  | _, _ => none

/-- Model of `text.slice(0, n)`: the first `n` characters. -/
def jsSlice (s : String) (n : Nat) : String := ⟨s.toList.take n⟩

/-- A flashcard record of the cloud variant. -/
structure Flashcard where
  id : String
  question : String
  answer : String

/-- Coercion `String(card?.key ?? "").trim()` applied to one field of an
extracted element: the nullish coalescing turns a missing (`undefined`) or
`null` field into the empty string, every other value goes through the
JavaScript `String()` conversion, and the result is trimmed. -/
def coerceField (card : JSVal) (key : String) : String :=
  jsTrim (jsString
    (match jsGet card key with
      | .undef => .str ""
      | .null => .str ""
      | v => v))

/-- The id  `` `flashcard-${Date.now()}-${i}` `` of a generated card, with
the `Date.now()` timestamp supplied as `now`. -/
def mkId (now i : Nat) : String :=
  "flashcard-" ++ natDec now ++ "-" ++ natDec i

/-- Test whether a parse result is a successfully parsed array. -/
def isSomeArr : Option JSVal → Bool
  | some (.arr _) => true
  | _ => false

/-- The element list of a parse result when it is an array (the
`Array.isArray(parsed)` test of the source), nothing otherwise. -/
def arrOf : Option JSVal → Option (List JSVal)
  | some (.arr es) => some es.toList
  | _ => none

namespace GeminiService

/-- Translation of `toText` (`services/geminiService.ts`): read
`res?.response?.text`; invoke it if it is callable, use it if it is a
string; otherwise fall back to the first candidate's content parts, keeping
the truthy `text` fields and joining them with newlines; otherwise the
empty string.  The embedded function is total, so no error can escape. -/
def toText (res : JSVal) : String :=
  match jsGet (jsGet res "response") "text" with
  | .fn ret => ret
  | .str s => s
  | _ =>
    match jsGet (jsGet (jsIndex (jsGet (jsGet res "response") "candidates") 0) "content") "parts" with
    | .arr parts =>
      let txt :=
        String.intercalate "\n"
          (((parts.toList.map (fun p => jsGet p "text")).filter truthy).map jsString)
      if txt = "" then "" else txt
    | _ => ""

/-- The best-effort array extraction of `generateFlashcards`: strict
`JSON.parse` of the whole text, used when it yields an array.  The regex
fallback runs only inside the `catch`, i.e. only when the whole-text parse
throws; a successful parse to a non-array leaves `arr` null without
reaching the fallback. -/
def extractArr (text : String) : Option (List JSVal) :=
  match jsonParse text with
  | none =>
    match bracketSlice text with
    | some sub => arrOf (jsonParse sub)
    | none => none
  | o => arrOf o

/-- Translation of the extraction part of `generateFlashcards`
(`services/geminiService.ts`), applied to the trimmed normalized response
text; `now` is the `Date.now()` timestamp of the call. -/
def generateFlashcards (now : Nat) (text : String) : List Flashcard :=
  let arr := (extractArr text).getD []
  let cards := arr.enum.map
    (fun ic => Flashcard.mk (mkId now ic.1) (coerceField ic.2 "question") (coerceField ic.2 "answer"))
  if cards.length = 0 then [Flashcard.mk (mkId now 0) "Summary" (jsSlice text 1000)]
  else cards

/-- Model selection of `askQuestion`. -/
def modelName (useThinkingMode : Bool) : String :=
  if useThinkingMode then "gemini-2.5-pro" else "gemini-2.5-flash"

/-- The prompt assembled by `askQuestion`. -/
def askPrompt (question sourceContent : String) (useThinkingMode : Bool) : String :=
  String.intercalate "\n"
    [ if useThinkingMode then "Think step by step, state key assumptions, then answer concisely."
      else "Answer concisely and clearly."
    , "Use the SOURCE when relevant. If the SOURCE lacks the answer, say so briefly."
    , ""
    , "--- SOURCE ---"
    , sourceContent
    , "--- END SOURCE ---"
    , ""
    , "QUESTION: " ++ question ]

/-- Translation of `geminiService.askQuestion`.  The backend call is the
parameter `generateContent` (model name and prompt to resolved response or
rejection); the surrounding `try`/`catch` turns any rejection into the
fixed apology string. -/
def askQuestion (generateContent : String → String → Except String JSVal)
    (question sourceContent : String) (useThinkingMode : Bool) : String :=
  match generateContent (modelName useThinkingMode) (askPrompt question sourceContent useThinkingMode) with
  | .ok res =>
    let text := toText res
    if text = "" then "I couldn’t produce an answer." else text
  | .error _ => "Sorry, I encountered an error while processing your question."

/-- The prompt assembled by `generateReport`. -/
def reportPrompt (sourceContent : String) : String :=
  String.intercalate "\n"
    [ "Create a crisp, well-structured report with short sections:"
    , "- Key ideas"
    , "- Evidence"
    , "- Uncertainties / open questions"
    , "End with 3 actionable next steps."
    , ""
    , "--- SOURCE ---"
    , sourceContent
    , "--- END SOURCE ---" ]

/-- Translation of `geminiService.generateReport`. -/
def generateReport (generateContent : String → String → Except String JSVal)
    (sourceContent : String) : String :=
  match generateContent "gemini-2.5-pro" (reportPrompt sourceContent) with
  | .ok res =>
    let text := toText res
    if text = "" then "No report text returned." else text
  | .error _ => "Sorry, I encountered an error while generating the report."

end GeminiService

namespace OllamaService

/-- Split a character sequence at every newline, as `chunk.split("\n")`:
`n` newlines yield `n + 1` (possibly empty) pieces. -/
def splitNl : List Char → List (List Char)
  | [] => [[]]
  | c :: cs =>
    match splitNl cs with
    | [] => [[]]
    | g :: gs => if c = '\n' then [] :: g :: gs else (c :: g) :: gs

/-- One line of the streaming loop of `queryOllama`: parse the line as
JSON and, when `json.response` is truthy, append it to the accumulator.  A
parse failure is caught and ignored; reading `.response` off a parsed
`null` throws inside the same `try` and is likewise ignored, which the
`undefined`-returning `jsGet` models equivalently (nothing is appended). -/
def lineStep (acc : String) (line : String) : String :=
  match jsonParse line with
  | some j =>
    let v := jsGet j "response"
    if truthy v then acc ++ jsString v else acc
  | none => acc

/-- One delivered chunk of the streaming loop: split on newlines, drop the
falsy (empty) pieces, and fold the per-line step over the rest. -/
def processChunk (acc : String) (chunk : String) : String :=
  (((splitNl chunk.toList).map (fun g => (⟨g⟩ : String))).filter (· ≠ "")).foldl lineStep acc

/-- The accumulated body text of `queryOllama` over the delivered chunks,
trimmed at the end as `result.trim()`. -/
def queryOllamaBody (chunks : List String) : String :=
  jsTrim (chunks.foldl processChunk "")

/-- Translation of `queryOllama`: a non-2xx response (`!res.ok`) throws
`Ollama error ${res.status}: ${errText}` before any stream reading; a 2xx
response reads and accumulates the stream.  (The `!reader` guard for an
absent body is not modelled: the delivered chunks stand for an existing
body stream.) -/
def queryOllama (status : Nat) (errText : String) (chunks : List String) :
    Except String String :=
  if 200 ≤ status ∧ status ≤ 299 then .ok (queryOllamaBody chunks)
  else .error ("Ollama error " ++ natDec status ++ ": " ++ errText)

/-- The prompt assembled by the local `askQuestion`. -/
def askPrompt (question sourceContent : String) (useThinkingMode : Bool) : String :=
  String.intercalate "\n"
    [ if useThinkingMode then "Think step by step, state assumptions clearly, then answer concisely."
      else "Answer clearly and concisely."
    , ""
    , "--- SOURCE ---"
    , sourceContent
    , "--- END SOURCE ---"
    , ""
    , "QUESTION: " ++ question ]

/-- Translation of the local `askQuestion`: the transport call is the
parameter `query`; its rejection is caught and replaced by the fixed
apology string. -/
def askQuestion (query : String → Except String String)
    (question sourceContent : String) (useThinkingMode : Bool) : String :=
  match query (askPrompt question sourceContent useThinkingMode) with
  | .ok s => s
  | .error _ => "Sorry, I encountered an error while processing your question."

/-- The prompt assembled by the local `generateReport`. -/
def reportPrompt (sourceContent : String) : String :=
  String.intercalate "\n"
    [ "Write a short, well-structured report with sections:"
    , "- Key ideas"
    , "- Evidence"
    , "- Open questions"
    , "End with 3 actionable next steps."
    , ""
    , "--- SOURCE ---"
    , sourceContent
    , "--- END SOURCE ---" ]

/-- Translation of the local `generateReport`: the transport result is
returned as-is, with no `try`/`catch`, so a rejection propagates to the
caller. -/
def generateReport (query : String → Except String String)
    (sourceContent : String) : Except String String :=
  query (reportPrompt sourceContent)

/-- Translation of the extraction part of the local `generateFlashcards`,
applied to the transport's response text: a whole-text parse yielding an
array is returned verbatim (no coercion, no ids); anything else falls back
to the single summary record. -/
def generateFlashcards (text : String) : List JSVal :=
  (arrOf (jsonParse text)).getD
    [JSVal.obj (.cons "question" (.str "Summary") (.cons "answer" (.str text) .nil))]

end OllamaService

/-- A chunk consisting of the given complete lines, each terminated by a
newline. -/
def chunkOfLines (ls : List String) : String :=
  String.join (ls.map (· ++ "\n"))

/-- The contribution of one complete stream line to the accumulated body:
the stringified `response` field when the line parses and the field is
truthy, nothing otherwise. -/
def lineResponse (l : String) : String :=
  match jsonParse l with
  | some j =>
    let v := jsGet j "response"
    if truthy v then jsString v else ""
  | none => ""

/-- Spec-side description of the candidates/parts fallback of the Response
Normalizer: the non-empty string `text` fields of the parts, in order,
joined with newlines. -/
def specPartsText (parts : List JSVal) : String :=
  String.intercalate "\n"
    (parts.filterMap (fun p =>
      match jsGet p "text" with
      | .str s => if s = "" then none else some s
      | _ => none))

/-! ### Claim theorems: transport error handling -/

/-- C6: for every local-backend HTTP response with a non-2xx status,
`queryOllama` fails with an error whose message contains the numeric status
code and the response body text verbatim, and the result does not depend on
the stream chunks, i.e. no stream reading is attempted. -/
theorem queryOllama_non2xx (status : Nat) (errText : String)
    (chunks chunks' : List String) (h : ¬ (200 ≤ status ∧ status ≤ 299)) :
    OllamaService.queryOllama status errText chunks
        = Except.error ("Ollama error " ++ natDec status ++ ": " ++ errText)
    ∧ OllamaService.queryOllama status errText chunks
        = OllamaService.queryOllama status errText chunks' := by
  unfold OllamaService.queryOllama
  rw [if_neg h, if_neg h]
  exact ⟨rfl, rfl⟩

/-- Witness for C6 at status 404. -/
theorem queryOllama_non2xx_witness :
    OllamaService.queryOllama 404 "model not found" ["\x7b\"response\":\"hi\"\x7d\n"]
      = Except.error "Ollama error 404: model not found" :=
  ((queryOllama_non2xx 404 "model not found" ["\x7b\"response\":\"hi\"\x7d\n"] []
    (by decide)).1).trans rfl

/-- C7: for every failure raised by the backend call, `askQuestion` (both
variants) catches it at the outermost call and returns the fixed apologetic
string; the caller never observes a raw exception. -/
theorem askQuestion_catches (question sourceContent e1 e2 : String)
    (useThinkingMode : Bool)
    (query : String → Except String String)
    (generateContent : String → String → Except String JSVal)
    (hq : query (OllamaService.askPrompt question sourceContent useThinkingMode)
            = Except.error e1)
    (hg : generateContent (GeminiService.modelName useThinkingMode)
            (GeminiService.askPrompt question sourceContent useThinkingMode)
            = Except.error e2) :
    OllamaService.askQuestion query question sourceContent useThinkingMode
        = "Sorry, I encountered an error while processing your question."
    ∧ GeminiService.askQuestion generateContent question sourceContent useThinkingMode
        = "Sorry, I encountered an error while processing your question." := by
  constructor
  · unfold OllamaService.askQuestion
    rw [hq]
  · unfold GeminiService.askQuestion
    rw [hg]

/-- Witness for C7 with a failing transport. -/
theorem askQuestion_catches_witness :
    OllamaService.askQuestion (fun _ => Except.error "network down") "q" "s" false
        = "Sorry, I encountered an error while processing your question."
    ∧ GeminiService.askQuestion (fun _ _ => Except.error "network down") "q" "s" false
        = "Sorry, I encountered an error while processing your question." :=
  askQuestion_catches "q" "s" "network down" "network down" false _ _ rfl rfl

/-- C8: the local `generateReport` does not catch transport failures: an
error raised by the transport propagates to the caller unchanged. -/
theorem generateReport_propagates (sourceContent e : String)
    (query : String → Except String String)
    (h : query (OllamaService.reportPrompt sourceContent) = Except.error e) :
    OllamaService.generateReport query sourceContent = Except.error e := by
  unfold OllamaService.generateReport
  exact h

/-- Witness for C8 with a failing transport. -/
theorem generateReport_propagates_witness :
    OllamaService.generateReport (fun _ => Except.error "connection refused") "src"
      = Except.error "connection refused" :=
  generateReport_propagates "src" "connection refused" _ rfl

/-- C10: in the cloud variant, `askQuestion` and `generateReport` never
return the empty string: when the normalizer yields empty text on a
successful call each substitutes its fixed non-empty placeholder, and for
every backend outcome the returned string is non-empty. -/
theorem gemini_results_nonempty (question sourceContent : String)
    (useThinkingMode : Bool) (res : JSVal) (h : GeminiService.toText res = "") :
    GeminiService.askQuestion (fun _ _ => Except.ok res) question sourceContent useThinkingMode
        = "I couldn’t produce an answer."
    ∧ GeminiService.generateReport (fun _ _ => Except.ok res) sourceContent
        = "No report text returned."
    ∧ ∀ generateContent : String → String → Except String JSVal,
        GeminiService.askQuestion generateContent question sourceContent useThinkingMode ≠ ""
        ∧ GeminiService.generateReport generateContent sourceContent ≠ "" := by
  refine ⟨?_, ?_, ?_⟩
  · unfold GeminiService.askQuestion
    simp [h]
  · unfold GeminiService.generateReport
    simp [h]
  · intro generateContent
    constructor
    · unfold GeminiService.askQuestion
      cases hg : generateContent (GeminiService.modelName useThinkingMode)
          (GeminiService.askPrompt question sourceContent useThinkingMode) with
      | error e => simp
      | ok r =>
        dsimp only
        by_cases hr : GeminiService.toText r = ""
        · rw [if_pos hr]; simp
        · rw [if_neg hr]; exact hr
    · unfold GeminiService.generateReport
      cases hg : generateContent "gemini-2.5-pro" (GeminiService.reportPrompt sourceContent) with
      | error e => simp
      | ok r =>
        dsimp only
        by_cases hr : GeminiService.toText r = ""
        · rw [if_pos hr]; simp
        · rw [if_neg hr]; exact hr

/-- Witness for C10 with an empty-shaped successful response. -/
theorem gemini_results_nonempty_witness :
    GeminiService.askQuestion (fun _ _ => Except.ok JSVal.undef) "q" "s" false
        = "I couldn’t produce an answer."
    ∧ GeminiService.generateReport (fun _ _ => Except.ok JSVal.undef) "s"
        = "No report text returned." :=
  ⟨(gemini_results_nonempty "q" "s" false JSVal.undef rfl).1,
   (gemini_results_nonempty "q" "s" false JSVal.undef rfl).2.1⟩

/-! ### Injectivity of the decimal id components -/

/-- Numeric value read back from a digit string. -/
def decVal (cs : List Char) : Nat :=
  cs.foldl (fun a c => 10 * a + (c.toNat - 48)) 0

/-- Code point of a decimal digit character. -/
theorem digit_toNat (d : Nat) (h : d < 10) : (Char.ofNat (48 + d)).toNat = 48 + d := by
  interval_cases d <;> rfl

/-- Reading the produced digits back yields the number, for sufficient
fuel. -/
theorem decVal_natDecAux (f : Nat) : ∀ n : Nat, n < f → decVal (natDecAux f n) = n := by
  induction f with
  | zero => intro n hn; omega
  | succ f ih =>
    intro n hn
    unfold natDecAux
    by_cases h10 : n < 10
    · rw [if_pos h10]
      simp [decVal, digit_toNat n h10]
    · rw [if_neg h10]
      have hdiv : n / 10 < f := by
        have h1 : n / 10 < n := Nat.div_lt_self (by omega) (by omega)
        omega
      have hmod : n % 10 < 10 := Nat.mod_lt _ (by omega)
      simp only [decVal, List.foldl_append]
      have := ih (n / 10) hdiv
      simp only [decVal] at this
      simp [this, List.foldl, digit_toNat (n % 10) hmod]
      omega

/-- Two equal decimal strings come from the same number. -/
theorem natDec_inj {a b : Nat} (h : natDec a = natDec b) : a = b := by
  have hd : natDecAux (a + 1) a = natDecAux (b + 1) b := congrArg String.data h
  have ha := decVal_natDecAux (a + 1) a (Nat.lt_succ_self a)
  have hb := decVal_natDecAux (b + 1) b (Nat.lt_succ_self b)
  rw [hd] at ha
  omega

/-- Equality of string data gives equality of strings. -/
theorem strData_inj {s t : String} (h : s.data = t.data) : s = t := by
  cases s; cases t; cases h; rfl

/-- Card ids of one generation call are injective in the position index. -/
theorem mkId_inj (now : Nat) : Function.Injective (mkId now) := by
  intro i j h
  have hd := congrArg String.data h
  simp only [mkId, String.data_append, List.append_assoc] at hd
  have h1 := List.append_cancel_left hd
  have h2 := List.append_cancel_left h1
  have h3 := List.append_cancel_left h2
  exact natDec_inj (strData_inj h3)

/-- C9: within one `generateFlashcards` call the ids of the returned
records are pairwise distinct (each id is the fixed timestamp prefix plus
the record's position index); nothing is claimed across calls. -/
theorem flashcards_ids_nodup (now : Nat) (text : String) :
    ((GeminiService.generateFlashcards now text).map Flashcard.id).Nodup := by
  unfold GeminiService.generateFlashcards
  by_cases h :
      (((GeminiService.extractArr text).getD []).enum.map
        (fun ic => Flashcard.mk (mkId now ic.1) (coerceField ic.2 "question")
          (coerceField ic.2 "answer"))).length = 0
  · rw [if_pos h]
    simp
  · rw [if_neg h]
    have : (((GeminiService.extractArr text).getD []).enum.map
        (fun ic => Flashcard.mk (mkId now ic.1) (coerceField ic.2 "question")
          (coerceField ic.2 "answer"))).map Flashcard.id
        = (List.range ((GeminiService.extractArr text).getD []).length).map (mkId now) := by
      rw [List.map_map]
      have : (Flashcard.id ∘ fun ic : Nat × JSVal =>
          Flashcard.mk (mkId now ic.1) (coerceField ic.2 "question")
            (coerceField ic.2 "answer")) = (mkId now) ∘ Prod.fst := rfl
      rw [this, ← List.map_map, List.enum_map_fst]
    rw [this]
    exact (List.nodup_range _).map (mkId_inj now)

/-! ### Claim theorems: structured extraction -/

/-- Round trip of the element-list views. -/
theorem toList_ofList (l : List JSVal) : (JSItems.ofList l).toList = l := by
  induction l with
  | nil => rfl
  | cons v vs ih => simp [JSItems.ofList, JSItems.toList, ih]

/-- A parse result that is not an array yields no element list. -/
theorem arrOf_eq_none (o : Option JSVal) (h : isSomeArr o = false) : arrOf o = none := by
  cases o with
  | none => rfl
  | some v => cases v <;> first | rfl | (simp [isSomeArr] at h)

/-- On a successfully extracted non-empty array, the cloud variant's cards
are the coerced elements in order with position-indexed ids. -/
theorem geminiFlashcards_maps (now : Nat) (text : String) (es : List JSVal)
    (h : GeminiService.extractArr text = some es) (hne : es ≠ []) :
    (GeminiService.generateFlashcards now text).map (fun c => (c.question, c.answer))
        = es.map (fun e => (coerceField e "question", coerceField e "answer"))
    ∧ (GeminiService.generateFlashcards now text).map Flashcard.id
        = (List.range es.length).map (mkId now) := by
  have hcards : GeminiService.generateFlashcards now text
      = es.enum.map (fun ic => Flashcard.mk (mkId now ic.1)
          (coerceField ic.2 "question") (coerceField ic.2 "answer")) := by
    unfold GeminiService.generateFlashcards
    rw [h]
    simp only [Option.getD_some]
    rw [if_neg]
    simp only [List.length_map, List.enum_length]
    exact fun hlen => hne (List.length_eq_zero.mp hlen)
  constructor
  · rw [hcards, List.map_map]
    have : ((fun c : Flashcard => (c.question, c.answer)) ∘ fun ic : Nat × JSVal =>
        Flashcard.mk (mkId now ic.1) (coerceField ic.2 "question") (coerceField ic.2 "answer"))
        = (fun e => (coerceField e "question", coerceField e "answer")) ∘ Prod.snd := rfl
    rw [this, ← List.map_map, List.enum_map_snd]
  · rw [hcards, List.map_map]
    have : (Flashcard.id ∘ fun ic : Nat × JSVal =>
        Flashcard.mk (mkId now ic.1) (coerceField ic.2 "question") (coerceField ic.2 "answer"))
        = (mkId now) ∘ Prod.fst := rfl
    rw [this, ← List.map_map, List.enum_map_fst]

/-- C1 (amended): for every text whose whole-text parse yields a non-empty
JSON array, the cloud variant returns the array's elements in order, each
coerced by `String(card?.field ?? "").trim()` (missing or `null` fields
become empty strings; other non-string values go through the JavaScript
`String()` conversion), with position-indexed ids, while the local variant
returns the parsed elements verbatim without any coercion. -/
theorem flashcards_array_extraction (now : Nat) (text : String) (es : List JSVal)
    (h : jsonParse text = some (JSVal.arr (JSItems.ofList es))) (hne : es ≠ []) :
    (GeminiService.generateFlashcards now text).map (fun c => (c.question, c.answer))
        = es.map (fun e => (coerceField e "question", coerceField e "answer"))
    ∧ (GeminiService.generateFlashcards now text).map Flashcard.id
        = (List.range es.length).map (mkId now)
    ∧ OllamaService.generateFlashcards text = es := by
  have hx : GeminiService.extractArr text = some es := by
    unfold GeminiService.extractArr
    simp only [h, arrOf, toList_ofList]
  have hm := geminiFlashcards_maps now text es hx hne
  refine ⟨hm.1, hm.2, ?_⟩
  unfold OllamaService.generateFlashcards
  simp only [h, arrOf, toList_ofList, Option.getD_some]

/-- C1 is false as stated: on the well-formed JSON array text
`[{"question":true,"answer":"x"}]`, whose sole element carries a boolean
(non-string) question field, the cloud variant returns the question
`"true"` — the JavaScript `String()` conversion of the value — and not the
empty string the claim requires for non-string fields. -/
theorem flashcards_array_extraction_counterexample :
    jsonParse "[\x7b\"question\":true,\"answer\":\"x\"\x7d]"
      = some (JSVal.arr (JSItems.ofList [JSVal.obj (JSFields.ofList
          [("question", JSVal.bool true), ("answer", JSVal.str "x")])]))
    ∧ (GeminiService.generateFlashcards 0 "[\x7b\"question\":true,\"answer\":\"x\"\x7d]").map
        (fun c => (c.question, c.answer)) = [("true", "x")]
    ∧ ("true", "x") ≠ (("" : String), ("x" : String)) :=
  ⟨rfl, rfl, by decide⟩

/-- Witness for the amended C1 on a concrete two-element array. -/
theorem flashcards_array_extraction_witness :
    (GeminiService.generateFlashcards 0
        "[\x7b\"question\":\"Q1\",\"answer\":\"A1\"\x7d,\x7b\"question\":\"Q2\"\x7d]").map
      (fun c => (c.question, c.answer)) = [("Q1", "A1"), ("Q2", "")]
    ∧ (GeminiService.generateFlashcards 0
        "[\x7b\"question\":\"Q1\",\"answer\":\"A1\"\x7d,\x7b\"question\":\"Q2\"\x7d]").map
      Flashcard.id = ["flashcard-0-0", "flashcard-0-1"]
    ∧ OllamaService.generateFlashcards
        "[\x7b\"question\":\"Q1\",\"answer\":\"A1\"\x7d,\x7b\"question\":\"Q2\"\x7d]"
      = [JSVal.obj (JSFields.ofList [("question", JSVal.str "Q1"), ("answer", JSVal.str "A1")]),
         JSVal.obj (JSFields.ofList [("question", JSVal.str "Q2")])] := by
  have h := flashcards_array_extraction 0
    "[\x7b\"question\":\"Q1\",\"answer\":\"A1\"\x7d,\x7b\"question\":\"Q2\"\x7d]"
    [JSVal.obj (JSFields.ofList [("question", JSVal.str "Q1"), ("answer", JSVal.str "A1")]),
     JSVal.obj (JSFields.ofList [("question", JSVal.str "Q2")])]
    rfl (by simp)
  exact ⟨h.1.trans rfl, h.2.1.trans rfl, h.2.2⟩

/-- C3: for every text containing no valid JSON array (neither the whole
text nor the greedy bracketed substring parses to an array), each variant
returns exactly one fallback record with the fixed label `Summary` as the
question and the raw text as the answer — capped at 1000 characters in the
cloud variant — so within this scope extraction never fails and always
yields at least one record. -/
theorem extractor_fallback (now : Nat) (text : String)
    (h1 : isSomeArr (jsonParse text) = false)
    (h2 : ∀ sub, bracketSlice text = some sub → isSomeArr (jsonParse sub) = false) :
    GeminiService.generateFlashcards now text
        = [Flashcard.mk (mkId now 0) "Summary" (jsSlice text 1000)]
    ∧ OllamaService.generateFlashcards text
        = [JSVal.obj (.cons "question" (.str "Summary")
            (.cons "answer" (.str text) .nil))] := by
  have hg : arrOf (jsonParse text) = none := arrOf_eq_none _ h1
  constructor
  · have hx : GeminiService.extractArr text = none := by
      unfold GeminiService.extractArr
      cases hp : jsonParse text with
      | some v =>
        rw [hp] at hg
        exact hg
      | none =>
        cases hb : bracketSlice text with
        | none => rfl
        | some sub => exact arrOf_eq_none _ (h2 sub hb)
    unfold GeminiService.generateFlashcards
    rw [hx]
    rfl
  · unfold OllamaService.generateFlashcards
    rw [hg]
    rfl

/-- Witness for C3 on the array-free text `hello`. -/
theorem extractor_fallback_witness :
    GeminiService.generateFlashcards 7 "hello"
        = [Flashcard.mk "flashcard-7-0" "Summary" "hello"]
    ∧ OllamaService.generateFlashcards "hello"
        = [JSVal.obj (.cons "question" (.str "Summary")
            (.cons "answer" (.str "hello") .nil))] := by
  have h := extractor_fallback 7 "hello" rfl
    (fun sub hsub => by
      rw [show bracketSlice "hello" = none from rfl] at hsub
      exact Option.noConfusion hsub)
  exact ⟨h.1.trans rfl, h.2⟩

/-- C5 (amended): when the whole-text parse throws and the greedy
first-`[`-to-last-`]` substring parses to a non-empty JSON array, the cloud
variant uses that array's elements (coerced, in order, with
position-indexed ids), ignoring the surrounding prose; the local variant
performs no substring search and returns the single `Summary` fallback
record instead. -/
theorem bracket_extraction (now : Nat) (text sub : String) (es : List JSVal)
    (h0 : jsonParse text = none)
    (h1 : bracketSlice text = some sub)
    (h2 : jsonParse sub = some (JSVal.arr (JSItems.ofList es)))
    (hne : es ≠ []) :
    (GeminiService.generateFlashcards now text).map (fun c => (c.question, c.answer))
        = es.map (fun e => (coerceField e "question", coerceField e "answer"))
    ∧ (GeminiService.generateFlashcards now text).map Flashcard.id
        = (List.range es.length).map (mkId now)
    ∧ OllamaService.generateFlashcards text
        = [JSVal.obj (.cons "question" (.str "Summary")
            (.cons "answer" (.str text) .nil))] := by
  have hx : GeminiService.extractArr text = some es := by
    unfold GeminiService.extractArr
    simp only [h0, h1, h2, arrOf, toList_ofList]
  have hm := geminiFlashcards_maps now text es hx hne
  refine ⟨hm.1, hm.2, ?_⟩
  unfold OllamaService.generateFlashcards
  simp only [h0, arrOf, Option.getD_none]

/-- C5 is false as stated for the local variant: on prose with an embedded
JSON array the local `generateFlashcards` does not locate the bracketed
substring — it returns the single `Summary` fallback record instead of the
array's elements. -/
theorem bracket_extraction_counterexample :
    bracketSlice "Note: [\"q\"] end" = some "[\"q\"]"
    ∧ jsonParse "[\"q\"]" = some (JSVal.arr (JSItems.ofList [JSVal.str "q"]))
    ∧ OllamaService.generateFlashcards "Note: [\"q\"] end"
        = [JSVal.obj (.cons "question" (.str "Summary")
            (.cons "answer" (.str "Note: [\"q\"] end") .nil))]
    ∧ OllamaService.generateFlashcards "Note: [\"q\"] end" ≠ [JSVal.str "q"] := by
  refine ⟨rfl, rfl, rfl, ?_⟩
  intro h
  have h' : [JSVal.obj (.cons "question" (.str "Summary")
      (.cons "answer" (.str "Note: [\"q\"] end") .nil))] = [JSVal.str "q"] :=
    Eq.trans rfl h
  injection h' with hhd htl
  exact JSVal.noConfusion hhd

/-- Witness for the amended C5 on prose around the array `["q"]`. -/
theorem bracket_extraction_witness :
    (GeminiService.generateFlashcards 0 "Note: [\"q\"] end").map
        (fun c => (c.question, c.answer)) = [("", "")]
    ∧ OllamaService.generateFlashcards "Note: [\"q\"] end"
        = [JSVal.obj (.cons "question" (.str "Summary")
            (.cons "answer" (.str "Note: [\"q\"] end") .nil))] := by
  have h := bracket_extraction 0 "Note: [\"q\"] end" "[\"q\"]" [JSVal.str "q"]
    rfl rfl rfl (by simp)
  exact ⟨h.1.trans rfl, h.2.2⟩

/-! ### Claim theorem: response normalizer -/

/-- With every part's `text` a string or absent, the kept truthy texts are
exactly the non-empty string texts. -/
theorem partsText_eq (parts : List JSVal)
    (h : ∀ p ∈ parts, jsGet p "text" = JSVal.undef ∨ jsGet p "text" = JSVal.null
        ∨ ∃ s, jsGet p "text" = JSVal.str s) :
    ((parts.map (fun p => jsGet p "text")).filter truthy).map jsString
      = parts.filterMap (fun p =>
          match jsGet p "text" with
          | JSVal.str s => if s = "" then none else some s
          | _ => none) := by
  induction parts with
  | nil => rfl
  | cons p ps ih =>
    have hp := h p (List.mem_cons_self p ps)
    have hps := ih (fun q hq => h q (List.mem_cons_of_mem p hq))
    simp only [List.map_cons, List.filter_cons, List.filterMap_cons]
    rcases hp with h1 | h1 | ⟨s, h1⟩
    · rw [h1]
      simpa [truthy] using hps
    · rw [h1]
      simpa [truthy] using hps
    · rw [h1]
      by_cases hs0 : s = ""
      · subst hs0
        simpa [truthy] using hps
      · simp only [truthy, if_neg hs0]
        simp [jsString, hps, hs0]

/-- When the `text` attribute is neither callable nor a string, `toText`
proceeds to the candidates/parts fallback. -/
theorem toText_default (res : JSVal)
    (hf : ∀ ret, jsGet (jsGet res "response") "text" ≠ JSVal.fn ret)
    (hs : ∀ s, jsGet (jsGet res "response") "text" ≠ JSVal.str s) :
    GeminiService.toText res
      = (match jsGet (jsGet (jsIndex (jsGet (jsGet res "response") "candidates") 0) "content") "parts" with
         | JSVal.arr parts =>
           let txt := String.intercalate "\n"
             (((parts.toList.map (fun p => jsGet p "text")).filter truthy).map jsString)
           if txt = "" then "" else txt
         | _ => "") := by
  unfold GeminiService.toText
  cases ht : jsGet (jsGet res "response") "text" <;> first
    | exact absurd ht (hf _)
    | exact absurd ht (hs _)
    | rfl

/-- C4: `toText` tries the shapes in a fixed order — a callable `text`
accessor is invoked and its return value used; otherwise a string-valued
`text` field is used as-is; otherwise the first candidate's content parts
have their non-empty string `text` fields collected in order and joined
with newlines; otherwise the result is the empty string — and, being a
total function, it never throws; the four concrete shapes of the claim
evaluate accordingly. -/
theorem toText_resolution :
    (∀ res ret, jsGet (jsGet res "response") "text" = JSVal.fn ret →
        GeminiService.toText res = ret)
    ∧ (∀ res s, jsGet (jsGet res "response") "text" = JSVal.str s →
        GeminiService.toText res = s)
    ∧ (∀ res (parts : List JSVal),
        (∀ ret, jsGet (jsGet res "response") "text" ≠ JSVal.fn ret) →
        (∀ s, jsGet (jsGet res "response") "text" ≠ JSVal.str s) →
        jsGet (jsGet (jsIndex (jsGet (jsGet res "response") "candidates") 0) "content") "parts"
            = JSVal.arr (JSItems.ofList parts) →
        (∀ p ∈ parts, jsGet p "text" = JSVal.undef ∨ jsGet p "text" = JSVal.null
            ∨ ∃ s, jsGet p "text" = JSVal.str s) →
        GeminiService.toText res = specPartsText parts)
    ∧ (∀ res,
        (∀ ret, jsGet (jsGet res "response") "text" ≠ JSVal.fn ret) →
        (∀ s, jsGet (jsGet res "response") "text" ≠ JSVal.str s) →
        (∀ parts, jsGet (jsGet (jsIndex (jsGet (jsGet res "response") "candidates") 0) "content") "parts"
            ≠ JSVal.arr parts) →
        GeminiService.toText res = "")
    ∧ GeminiService.toText
        (.obj (.cons "response" (.obj (.cons "text" (.fn "hi") .nil)) .nil)) = "hi"
    ∧ GeminiService.toText
        (.obj (.cons "response" (.obj (.cons "text" (.str "hi") .nil)) .nil)) = "hi"
    ∧ GeminiService.toText
        (.obj (.cons "response" (.obj (.cons "candidates"
          (.arr (.cons (.obj (.cons "content" (.obj (.cons "parts"
            (.arr (.cons (.obj (.cons "text" (.str "a") .nil))
              (.cons (.obj (.cons "text" (.str "b") .nil)) .nil))) .nil)) .nil)) .nil)) .nil)) .nil))
        = "a\nb"
    ∧ GeminiService.toText JSVal.undef = "" := by
  refine ⟨?_, ?_, ?_, ?_, rfl, rfl, rfl, rfl⟩
  · intro res ret h
    unfold GeminiService.toText
    rw [h]
  · intro res s h
    unfold GeminiService.toText
    rw [h]
  · intro res parts hf hs hp hstr
    rw [toText_default res hf hs, hp]
    dsimp only
    rw [toList_ofList, partsText_eq parts hstr]
    by_cases h0 : String.intercalate "\n" (parts.filterMap (fun p =>
        match jsGet p "text" with
        | JSVal.str s => if s = "" then none else some s
        | _ => none)) = ""
    · rw [if_pos h0]
      exact h0.symm
    · rw [if_neg h0]
      rfl
  · intro res hf hs hp
    rw [toText_default res hf hs]
    cases hpp : jsGet (jsGet (jsIndex (jsGet (jsGet res "response") "candidates") 0) "content") "parts" <;>
      first
        | exact absurd hpp (hp _)
        | rfl

/-- Witness for C4: the parts fallback applied to a concrete two-part
candidates shape through the general clause. -/
theorem toText_resolution_witness :
    GeminiService.toText
        (.obj (.cons "response" (.obj (.cons "candidates"
          (.arr (.cons (.obj (.cons "content" (.obj (.cons "parts"
            (.arr (JSItems.ofList
              [.obj (.cons "text" (.str "a") .nil),
               .obj (.cons "text" (.str "b") .nil)])) .nil)) .nil)) .nil)) .nil)) .nil))
        = "a\nb" := by
  have h := toText_resolution.2.2.1
    (.obj (.cons "response" (.obj (.cons "candidates"
      (.arr (.cons (.obj (.cons "content" (.obj (.cons "parts"
        (.arr (JSItems.ofList
          [.obj (.cons "text" (.str "a") .nil),
           .obj (.cons "text" (.str "b") .nil)])) .nil)) .nil)) .nil)) .nil)) .nil))
    [.obj (.cons "text" (.str "a") .nil), .obj (.cons "text" (.str "b") .nil)]
    (fun ret hr => JSVal.noConfusion hr)
    (fun s hr => JSVal.noConfusion hr)
    rfl
    (by
      intro p hp
      rcases List.mem_cons.mp hp with rfl | hp2
      · exact Or.inr (Or.inr ⟨"a", rfl⟩)
      · rcases List.mem_cons.mp hp2 with rfl | hp3
        · exact Or.inr (Or.inr ⟨"b", rfl⟩)
        · exact absurd hp3 (List.not_mem_nil p))
  exact h.trans rfl

/-! ### Claim theorems: streaming transport -/

/-- `splitNl` always returns at least one piece. -/
theorem splitNl_ne_nil (cs : List Char) : OllamaService.splitNl cs ≠ [] := by
  cases cs with
  | nil => simp [OllamaService.splitNl]
  | cons c cs' =>
    simp only [OllamaService.splitNl]
    cases OllamaService.splitNl cs' with
    | nil => simp
    | cons g gs => by_cases h : c = '\n' <;> simp [h]

/-- Splitting a newline-free prefix followed by a newline peels the prefix
off as one piece. -/
theorem splitNl_cons_of_sep (l rest : List Char) (hl : '\n' ∉ l) :
    OllamaService.splitNl (l ++ '\n' :: rest) = l :: OllamaService.splitNl rest := by
  induction l with
  | nil =>
    simp only [List.nil_append, OllamaService.splitNl]
    cases hs : OllamaService.splitNl rest with
    | nil => exact absurd hs (splitNl_ne_nil rest)
    | cons g gs => simp
  | cons c l ih =>
    have hc : c ≠ '\n' := fun h => hl (h ▸ List.mem_cons_self c l)
    have hl' : '\n' ∉ l := fun h => hl (List.mem_cons_of_mem c h)
    simp only [List.cons_append, OllamaService.splitNl, List.append_eq]
    rw [ih hl']
    simp [hc]

/-- Splitting a chunk made of newline-terminated newline-free lines yields
exactly those lines plus one trailing empty piece. -/
theorem splitNl_chunk (ls : List (List Char)) (h : ∀ l ∈ ls, '\n' ∉ l) :
    OllamaService.splitNl ((ls.map (fun l => l ++ ['\n'])).flatten) = ls ++ [[]] := by
  induction ls with
  | nil => rfl
  | cons l ls ih =>
    simp only [List.map_cons, List.flatten_cons, List.append_assoc, List.singleton_append]
    rw [splitNl_cons_of_sep l _ (h l (List.mem_cons_self l ls))]
    rw [ih (fun q hq => h q (List.mem_cons_of_mem _ hq))]
    rfl

/-- Data of a joined string list is the join of the data. -/
theorem join_data (ss : List String) :
    (String.join ss).data = (ss.map String.data).flatten := by
  have h : ∀ acc : String, (ss.foldl (fun r s => r ++ s) acc).data
      = acc.data ++ (ss.map String.data).flatten := by
    induction ss with
    | nil => intro acc; simp
    | cons s ss ih =>
      intro acc
      simp only [List.foldl_cons, List.map_cons, List.flatten_cons, ih,
        String.data_append, List.append_assoc]
  simpa [String.join] using h ""

/-- Join of a cons. -/
theorem join_cons (s : String) (l : List String) :
    String.join (s :: l) = s ++ String.join l := by
  apply strData_inj
  simp [join_data, String.data_append]

/-- Join of an append. -/
theorem join_append (a b : List String) :
    String.join (a ++ b) = String.join a ++ String.join b := by
  apply strData_inj
  simp [join_data, String.data_append]

/-- Character data of a chunk built from lines. -/
theorem chunkOfLines_toList (ls : List String) :
    (chunkOfLines ls).toList = (ls.map (fun l => l.toList ++ ['\n'])).flatten := by
  show (chunkOfLines ls).data = (ls.map (fun l => l.data ++ ['\n'])).flatten
  unfold chunkOfLines
  rw [join_data, List.map_map]
  simp only [Function.comp_def, String.data_append]

/-- Processing a chunk of complete, non-empty, newline-free lines folds the
per-line step over exactly those lines. -/
theorem processChunk_lines (acc : String) (ls : List String)
    (h : ∀ l ∈ ls, l ≠ "" ∧ '\n' ∉ l.toList) :
    OllamaService.processChunk acc (chunkOfLines ls)
      = ls.foldl OllamaService.lineStep acc := by
  unfold OllamaService.processChunk
  have h1 : OllamaService.splitNl (chunkOfLines ls).toList
      = (ls.map String.toList) ++ [[]] := by
    rw [chunkOfLines_toList]
    have h2 := splitNl_chunk (ls.map String.toList)
      (fun l hl => by
        rcases List.mem_map.mp hl with ⟨s, hs, rfl⟩
        exact (h s hs).2)
    rw [List.map_map] at h2
    exact h2
  rw [h1]
  have h2 : ((ls.map String.toList) ++ [[]]).map (fun g => (⟨g⟩ : String))
      = ls ++ [""] := by
    rw [List.map_append, List.map_map]
    congr 1
    have : ((fun g => (⟨g⟩ : String)) ∘ String.toList) = id := by
      funext s
      rfl
    rw [this, List.map_id]
  rw [h2]
  have h3 : (ls ++ [""]).filter (fun s => s ≠ "") = ls := by
    rw [List.filter_append]
    have : ([""] : List String).filter (fun s => s ≠ "") = [] := rfl
    rw [this, List.append_nil]
    exact List.filter_eq_self.mpr (fun a ha => by simp [(h a ha).1])
  rw [h3]

/-- Folding the per-line step appends each line's response contribution. -/
theorem foldl_lineStep (ls : List String) (acc : String) :
    ls.foldl OllamaService.lineStep acc
      = acc ++ String.join (ls.map lineResponse) := by
  induction ls generalizing acc with
  | nil => simp [String.join]
  | cons l ls ih =>
    simp only [List.foldl_cons, List.map_cons]
    rw [ih]
    have hstep : OllamaService.lineStep acc l = acc ++ lineResponse l := by
      unfold OllamaService.lineStep lineResponse
      cases jsonParse l with
      | none => simp
      | some j =>
        dsimp only
        by_cases ht : truthy (jsGet j "response") <;> simp [ht]
    rw [hstep, join_cons, String.append_assoc]

/-- The accumulated body over line-aligned chunks is the concatenation of
the per-line contributions, trimmed. -/
theorem queryOllamaBody_grouped (groups : List (List String))
    (h : ∀ l ∈ groups.flatten, l ≠ "" ∧ '\n' ∉ l.toList) :
    OllamaService.queryOllamaBody (groups.map chunkOfLines)
      = jsTrim (String.join (groups.flatten.map lineResponse)) := by
  unfold OllamaService.queryOllamaBody
  congr 1
  have hform : ∀ (gs : List (List String)),
      (∀ l ∈ gs.flatten, l ≠ "" ∧ '\n' ∉ l.toList) → ∀ acc : String,
      (gs.map chunkOfLines).foldl OllamaService.processChunk acc
        = acc ++ String.join (gs.flatten.map lineResponse) := by
    intro gs
    induction gs with
    | nil => intro hh acc; simp [String.join]
    | cons g gs ih =>
      intro hh acc
      simp only [List.map_cons, List.foldl_cons, List.flatten_cons]
      rw [processChunk_lines acc g
        (fun l hl => hh l (List.mem_append_left _ hl))]
      rw [foldl_lineStep]
      rw [ih (fun l hl => hh l (List.mem_append_right _ hl)) _]
      rw [List.map_append, join_append, String.append_assoc]
  simpa using hform groups h ""

/-- For line-aligned chunk groups whose lines all parse, the accumulated
body is the trimmed concatenation of the per-line `response` fields. -/
theorem stream_chunks_main (groups : List (List (String × String)))
    (hl : ∀ p ∈ groups.flatten, p.1 ≠ "" ∧ '\n' ∉ p.1.toList)
    (hp : ∀ p ∈ groups.flatten, ∃ j, jsonParse p.1 = some j ∧
        (jsGet j "response" = JSVal.str p.2
         ∨ (truthy (jsGet j "response") = false ∧ p.2 = ""))) :
    OllamaService.queryOllamaBody (groups.map (fun g => chunkOfLines (g.map Prod.fst)))
      = jsTrim (String.join (groups.flatten.map Prod.snd)) := by
  have hflat : (groups.map (List.map Prod.fst)).flatten
      = groups.flatten.map Prod.fst := (List.map_flatten Prod.fst groups).symm
  have hmap : groups.map (fun g => chunkOfLines (g.map Prod.fst))
      = (groups.map (List.map Prod.fst)).map chunkOfLines :=
    (List.map_map chunkOfLines (List.map Prod.fst) groups).symm
  rw [hmap, queryOllamaBody_grouped]
  · congr 1
    rw [hflat, List.map_map]
    congr 1
    apply List.map_congr_left
    intro p hpmem
    obtain ⟨j, hj, hr⟩ := hp p hpmem
    show lineResponse p.1 = p.2
    unfold lineResponse
    rw [hj]
    dsimp only
    rcases hr with hr | ⟨hf, hr2⟩
    · rw [hr]
      by_cases h0 : p.2 = ""
      · rw [h0]
        simp [truthy]
      · simp [truthy, h0, jsString]
    · simp only [hf]
      rw [hr2]
      rfl
  · intro l hl2
    rw [hflat] at hl2
    rcases List.mem_map.mp hl2 with ⟨p, hpmem, rfl⟩
    exact hl p hpmem

/-- C2 (amended): when every chunk boundary falls at a line boundary (each
chunk is a whole number of complete newline-terminated lines) and every
line is a complete JSON object, `queryOllama`'s accumulated output equals
the concatenation, in arrival order, of each object's `response` field
(absent or non-truthy fields contributing nothing), trimmed of leading and
trailing whitespace, and the output is invariant under regrouping the same
lines into different line-aligned chunks.  A line split across a chunk
boundary is dropped instead (see the counterexample), so invariance under
arbitrary boundaries fails. -/
theorem stream_chunks (groups : List (List (String × String)))
    (hl : ∀ p ∈ groups.flatten, p.1 ≠ "" ∧ '\n' ∉ p.1.toList)
    (hp : ∀ p ∈ groups.flatten, ∃ j, jsonParse p.1 = some j ∧
        (jsGet j "response" = JSVal.str p.2
         ∨ (truthy (jsGet j "response") = false ∧ p.2 = ""))) :
    OllamaService.queryOllamaBody (groups.map (fun g => chunkOfLines (g.map Prod.fst)))
        = jsTrim (String.join (groups.flatten.map Prod.snd))
    ∧ ∀ groups' : List (List (String × String)), groups'.flatten = groups.flatten →
        OllamaService.queryOllamaBody (groups'.map (fun g => chunkOfLines (g.map Prod.fst)))
          = OllamaService.queryOllamaBody (groups.map (fun g => chunkOfLines (g.map Prod.fst))) := by
  have hmain := stream_chunks_main groups hl hp
  refine ⟨hmain, ?_⟩
  intro groups' hj
  have hl' : ∀ p ∈ groups'.flatten, p.1 ≠ "" ∧ '\n' ∉ p.1.toList := by
    rw [hj]; exact hl
  have hp' : ∀ p ∈ groups'.flatten, ∃ j, jsonParse p.1 = some j ∧
      (jsGet j "response" = JSVal.str p.2
       ∨ (truthy (jsGet j "response") = false ∧ p.2 = "")) := by
    rw [hj]; exact hp
  have hmain' := stream_chunks_main groups' hl' hp'
  rw [hmain, hmain', hj]

/-- C2 is false as stated: the two chunk lists below have the same
concatenation — a single complete newline-delimited JSON object — but the
first (boundary at the line break) yields `hi` while the second (boundary
mid-line) yields the empty string: the split line is dropped, so the output
does depend on where the chunk boundaries fall. -/
theorem stream_chunks_counterexample :
    ("\x7b\"resp" ++ "onse\":\"hi\"\x7d\n" : String) = "\x7b\"response\":\"hi\"\x7d\n"
    ∧ OllamaService.queryOllamaBody ["\x7b\"response\":\"hi\"\x7d\n"] = "hi"
    ∧ OllamaService.queryOllamaBody ["\x7b\"resp", "onse\":\"hi\"\x7d\n"] = ""
    ∧ ("" : String) ≠ "hi" :=
  ⟨rfl, rfl, rfl, by decide⟩

/-- Witness for the amended C2: two line-aligned chunks, the second
carrying two lines, one of which has no `response` field. -/
theorem stream_chunks_witness :
    OllamaService.queryOllamaBody
        [chunkOfLines ["\x7b\"response\":\"Hel\"\x7d"],
         chunkOfLines ["\x7b\"response\":\"lo\"\x7d", "\x7b\"done\":true\x7d"]]
      = "Hello" := by
  have h := (stream_chunks
      [[("\x7b\"response\":\"Hel\"\x7d", "Hel")],
       [("\x7b\"response\":\"lo\"\x7d", "lo"), ("\x7b\"done\":true\x7d", "")]]
      (by
        intro p hp
        have hp' : p ∈ [("\x7b\"response\":\"Hel\"\x7d", "Hel"),
            ("\x7b\"response\":\"lo\"\x7d", "lo"), ("\x7b\"done\":true\x7d", "")] := by
          simpa using hp
        rcases List.mem_cons.mp hp' with rfl | hp2
        · exact ⟨by decide, by decide⟩
        rcases List.mem_cons.mp hp2 with rfl | hp3
        · exact ⟨by decide, by decide⟩
        rcases List.mem_cons.mp hp3 with rfl | hp4
        · exact ⟨by decide, by decide⟩
        · exact absurd hp4 (List.not_mem_nil p))
      (by
        intro p hp
        have hp' : p ∈ [("\x7b\"response\":\"Hel\"\x7d", "Hel"),
            ("\x7b\"response\":\"lo\"\x7d", "lo"), ("\x7b\"done\":true\x7d", "")] := by
          simpa using hp
        rcases List.mem_cons.mp hp' with rfl | hp2
        · exact ⟨JSVal.obj (.cons "response" (.str "Hel") .nil), rfl, Or.inl rfl⟩
        rcases List.mem_cons.mp hp2 with rfl | hp3
        · exact ⟨JSVal.obj (.cons "response" (.str "lo") .nil), rfl, Or.inl rfl⟩
        rcases List.mem_cons.mp hp3 with rfl | hp4
        · exact ⟨JSVal.obj (.cons "done" (.bool true) .nil), rfl, Or.inr ⟨rfl, rfl⟩⟩
        · exact absurd hp4 (List.not_mem_nil p))).1
  exact h.trans rfl
